import Mathlib

/-!
Verification of the ltntstools slicer / clock-inspector core (src/src/slicer.c).

The C source is shallowly embedded below.  C `int`/`int64_t` values are
modelled as `Int` (C division and modulus truncate toward zero, so they are
rendered with `Int.tdiv` / `Int.tmod`); C unsigned counters are modelled as
`Nat`.  Each definition keeps the name of the source function it embeds.
Functions that live in the external libltntstools library (only declared,
never defined, in this repository) are modelled from the specification and
carry a doc comment saying so.
-/

set_option maxRecDepth 4000
set_option linter.unusedVariables false

/-! ## struct videotime_s and the time/PCR conversions (slicer.c lines 14-80) -/

structure videotime_s where
  days : Int
  hours : Int
  mins : Int
  secs : Int
  msecs : Int
deriving DecidableEq, Repr

/-- Embeds `pcr_to_videotime` (slicer.c lines 23-40).  The source computes
`msecs` with an expression and then unconditionally overwrites it with 0;
the shadowed `let` reproduces that dead store. -/
def pcr_to_videotime (pcr : Int) : videotime_s :=
  let seconds := Int.tdiv pcr 27000000
  let days := Int.tdiv seconds (3600 * 24)
  let seconds := seconds - days * (3600 * 24)
  let hours := Int.tdiv seconds 3600
  let seconds := seconds - hours * 3600
  let mins := Int.tdiv seconds 60
  let seconds := seconds - mins * 60
  let secs := seconds
  let msecs := Int.tmod (pcr - Int.tdiv pcr 27000000) 27000
  let msecs := 0
  { days := days, hours := hours, mins := mins, secs := secs, msecs := msecs }

/-- Embeds `videotime_to_pcr` (slicer.c lines 42-54). -/
def videotime_to_pcr (vt : videotime_s) : Int :=
  (vt.days * 3600 * 24 + vt.hours * 3600 + vt.mins * 60 + vt.secs) * 27000000
    + vt.msecs * 27000

lemma tdiv_cast (a b : Nat) : Int.tdiv (a : Int) (b : Int) = ((a / b : Nat) : Int) := by
  simp [Int.tdiv]

/-- Normal form of `pcr_to_videotime` on a nonnegative PCR: all truncating
divisions coincide with Euclidean division/modulus. -/
lemma pcr_to_videotime_eq (pcr : Int) (h : 0 ≤ pcr) :
    pcr_to_videotime pcr =
      { days := pcr / 27000000 / 86400,
        hours := pcr / 27000000 % 86400 / 3600,
        mins := pcr / 27000000 % 86400 % 3600 / 60,
        secs := pcr / 27000000 % 86400 % 3600 % 60,
        msecs := 0 } := by
  have h27 : (0:Int) ≤ 27000000 := by norm_num
  have hs : Int.tdiv pcr 27000000 = pcr / 27000000 := Int.tdiv_eq_ediv h h27
  set s := pcr / 27000000 with hsdef
  have hs0 : 0 ≤ s := Int.ediv_nonneg h h27
  have hd : Int.tdiv s (3600 * 24) = s / 86400 := by
    have := Int.tdiv_eq_ediv hs0 (by norm_num : (0:Int) ≤ 3600 * 24)
    simpa using this
  have hrem1 : s - s / 86400 * (3600 * 24) = s % 86400 := by
    have := Int.emod_def s 86400
    omega
  have hrem1nn : 0 ≤ s % 86400 := Int.emod_nonneg s (by norm_num)
  have hh : Int.tdiv (s % 86400) 3600 = s % 86400 / 3600 :=
    Int.tdiv_eq_ediv hrem1nn (by norm_num)
  have hrem2 : s % 86400 - s % 86400 / 3600 * 3600 = s % 86400 % 3600 := by
    have := Int.emod_def (s % 86400) 3600
    omega
  have hrem2nn : 0 ≤ s % 86400 % 3600 := Int.emod_nonneg _ (by norm_num)
  have hm : Int.tdiv (s % 86400 % 3600) 60 = s % 86400 % 3600 / 60 :=
    Int.tdiv_eq_ediv hrem2nn (by norm_num)
  have hrem3 : s % 86400 % 3600 - s % 86400 % 3600 / 60 * 60 = s % 86400 % 3600 % 60 := by
    have := Int.emod_def (s % 86400 % 3600) 60
    omega
  simp only [pcr_to_videotime, hs, ← hsdef]
  rw [hd, hrem1, hh, hrem2, hm, hrem3]

/-- **C8.**  For every 27 MHz PCR value, `pcr_to_videotime` always produces
`msecs = 0` (the dead store wins), the four remaining fields recombine to
exactly the whole-second count `pcr / 27000000`, and (for nonnegative PCR
values, the only ones a PCR field can encode) hours, minutes and seconds lie
in their calendar ranges. -/
theorem C8_pcr_to_videotime_decomposition (pcr : Int) :
    (pcr_to_videotime pcr).msecs = 0 ∧
    (pcr_to_videotime pcr).days * 86400 + (pcr_to_videotime pcr).hours * 3600
      + (pcr_to_videotime pcr).mins * 60 + (pcr_to_videotime pcr).secs
      = Int.tdiv pcr 27000000 ∧
    (0 ≤ pcr →
      0 ≤ (pcr_to_videotime pcr).days ∧
      0 ≤ (pcr_to_videotime pcr).hours ∧ (pcr_to_videotime pcr).hours < 24 ∧
      0 ≤ (pcr_to_videotime pcr).mins ∧ (pcr_to_videotime pcr).mins < 60 ∧
      0 ≤ (pcr_to_videotime pcr).secs ∧ (pcr_to_videotime pcr).secs < 60) := by
  refine ⟨rfl, ?_, ?_⟩
  · simp only [pcr_to_videotime]
    ring
  · intro h
    rw [pcr_to_videotime_eq pcr h]
    dsimp only
    have h27 : (0:Int) ≤ 27000000 := by norm_num
    have hs0 : 0 ≤ pcr / 27000000 := Int.ediv_nonneg h h27
    constructor
    · exact Int.ediv_nonneg hs0 (by norm_num)
    · omega

/-- Witness for C8 at `pcr = 27000000 * 90061 + 13`
(1 day, 1 hour, 1 minute, 1 second). -/
theorem C8_pcr_to_videotime_decomposition_witness :
    (0:Int) ≤ 27000000 * 90061 + 13 ∧
    0 ≤ (pcr_to_videotime (27000000 * 90061 + 13)).days ∧
    0 ≤ (pcr_to_videotime (27000000 * 90061 + 13)).hours ∧
    (pcr_to_videotime (27000000 * 90061 + 13)).hours < 24 ∧
    0 ≤ (pcr_to_videotime (27000000 * 90061 + 13)).mins ∧
    (pcr_to_videotime (27000000 * 90061 + 13)).mins < 60 ∧
    0 ≤ (pcr_to_videotime (27000000 * 90061 + 13)).secs ∧
    (pcr_to_videotime (27000000 * 90061 + 13)).secs < 60 := by
  have h := (C8_pcr_to_videotime_decomposition (27000000 * 90061 + 13)).2.2 (by norm_num)
  exact ⟨by norm_num, h.1, h.2.1, h.2.2.1, h.2.2.2.1, h.2.2.2.2.1, h.2.2.2.2.2.1,
    h.2.2.2.2.2.2⟩

/-! ## Decimal rendering and scanning used by `videotime_to_str` (printf) and
`str_to_videotime` (sscanf), slicer.c lines 56-80. -/

/-- The ASCII digit character for `d < 10`. -/
def digitChar (d : Nat) : Char := Char.ofNat (48 + d)

/-- Numeric value of an ASCII digit character. -/
def digitVal (c : Char) : Nat := c.toNat - 48

/-- Decimal digits of `n`, most significant first (printf `%d` on a
nonnegative value). -/
def natToDigits (n : Nat) : List Char :=
  if h : n < 10 then [digitChar n]
  else natToDigits (n / 10) ++ [digitChar (n % 10)]
decreasing_by exact Nat.div_lt_self (by omega) (by norm_num)

/-- printf `%d` on a C int. -/
def intToDigits (i : Int) : List Char :=
  if i < 0 then '-' :: natToDigits (-i).toNat else natToDigits i.toNat

/-- printf `%02d` on a C int: zero-pad to width two. -/
def pad2 (i : Int) : List Char :=
  if 0 ≤ i ∧ i < 10 then '0' :: natToDigits i.toNat else intToDigits i

/-- Embeds `videotime_to_str` (slicer.c lines 70-80), i.e.
`sprintf(t, "%d.%02d:%02d:%02d.%d", days, hours, mins, secs, msecs)`. -/
def videotime_to_str (vt : videotime_s) : String :=
  String.mk (intToDigits vt.days ++ '.' :: pad2 vt.hours ++ ':' :: pad2 vt.mins
    ++ ':' :: pad2 vt.secs ++ '.' :: intToDigits vt.msecs)

/-- Greedily consume decimal digits, accumulating their value (the digit
loop inside sscanf `%d`). -/
def scanDigits : List Char → Nat → Nat × List Char
  | [], acc => (acc, [])
  | c :: cs, acc =>
    if c.isDigit then scanDigits cs (acc * 10 + digitVal c) else (acc, c :: cs)

/-- sscanf `%d` on a nonnegative field: requires at least one digit. -/
def scanNat (cs : List Char) : Option (Nat × List Char) :=
  match cs with
  | [] => none
  | c :: _ => if c.isDigit then some (scanDigits cs 0) else none

/-- sscanf `%02d`: at most two digit characters, at least one. -/
def scanUpTo2 (cs : List Char) : Option (Nat × List Char) :=
  match cs with
  | [] => none
  | c1 :: rest =>
    if c1.isDigit then
      match rest with
      | c2 :: rest2 =>
        if c2.isDigit then some (digitVal c1 * 10 + digitVal c2, rest2)
        else some (digitVal c1, rest)
      | [] => some (digitVal c1, [])
    else none

/-- Match one literal character (the literal `.` and `:` in the sscanf
format string). -/
def expectChar (c : Char) (cs : List Char) : Option (List Char) :=
  match cs with
  | [] => none
  | c0 :: rest => if c0 = c then some rest else none

/-- Embeds `str_to_videotime` (slicer.c lines 56-68):
`sscanf(t, "%d.%02d:%02d:%02d.%d", ...)`, succeeding only when all five
fields convert (`ret == 5`). -/
def str_to_videotime (t : String) : Option videotime_s := do
  let (days, r1) ← scanNat t.data
  let r2 ← expectChar '.' r1
  let (hours, r3) ← scanUpTo2 r2
  let r4 ← expectChar ':' r3
  let (mins, r5) ← scanUpTo2 r4
  let r6 ← expectChar ':' r5
  let (secs, r7) ← scanUpTo2 r6
  let r8 ← expectChar '.' r7
  let (msecs, _) ← scanNat r8
  pure { days := (days : Int), hours := (hours : Int), mins := (mins : Int),
         secs := (secs : Int), msecs := (msecs : Int) }

lemma digitChar_isDigit {d : Nat} (h : d < 10) : (digitChar d).isDigit = true := by
  interval_cases d <;> decide

lemma digitVal_digitChar {d : Nat} (h : d < 10) : digitVal (digitChar d) = d := by
  interval_cases d <;> decide

lemma natToDigits_ne_nil (n : Nat) : natToDigits n ≠ [] := by
  rw [natToDigits]
  split <;> simp

lemma natToDigits_all_digit (n : Nat) : ∀ c ∈ natToDigits n, c.isDigit = true := by
  induction n using Nat.strong_induction_on with
  | _ n ih =>
    rw [natToDigits]
    split
    · next h =>
      intro c hc
      simp only [List.mem_singleton] at hc
      subst hc
      exact digitChar_isDigit h
    · next h =>
      intro c hc
      rw [List.mem_append] at hc
      rcases hc with hc | hc
      · exact ih (n / 10) (Nat.div_lt_self (by omega) (by norm_num)) c hc
      · simp only [List.mem_singleton] at hc
        subst hc
        exact digitChar_isDigit (Nat.mod_lt _ (by norm_num))

lemma scanDigits_natToDigits (n : Nat) :
    ∀ (acc : Nat) (rest : List Char),
      scanDigits (natToDigits n ++ rest) acc
        = scanDigits rest (acc * 10 ^ (natToDigits n).length + n) := by
  induction n using Nat.strong_induction_on with
  | _ n ih =>
    intro acc rest
    rw [natToDigits]
    split
    · next h =>
      simp [scanDigits, digitChar_isDigit h, digitVal_digitChar h]
    · next h =>
      rw [List.append_assoc, ih (n / 10) (Nat.div_lt_self (by omega) (by norm_num))]
      have h10 : n % 10 < 10 := Nat.mod_lt _ (by norm_num)
      simp only [List.singleton_append, scanDigits, digitChar_isDigit h10,
        digitVal_digitChar h10, if_true, List.length_append, List.length_singleton]
      congr 1
      have : n % 10 + 10 * (n / 10) = n := Nat.mod_add_div n 10
      rw [pow_succ]
      ring_nf
      omega

/-- The scan of `%d` stops at the first non-digit. -/
def noLeadingDigit (cs : List Char) : Prop :=
  ∀ c, cs.head? = some c → c.isDigit = false

lemma noLeadingDigit_nil : noLeadingDigit [] := by
  intro c hc
  simp at hc

lemma noLeadingDigit_cons {c : Char} (h : c.isDigit = false) (cs : List Char) :
    noLeadingDigit (c :: cs) := by
  intro c0 hc0
  simp only [List.head?_cons, Option.some_inj] at hc0
  subst hc0
  exact h

lemma scanDigits_stop (rest : List Char) (acc : Nat) (h : noLeadingDigit rest) :
    scanDigits rest acc = (acc, rest) := by
  cases rest with
  | nil => rfl
  | cons c cs =>
    have := h c (by simp)
    simp [scanDigits, this]

lemma scanNat_append (n : Nat) (rest : List Char) (h : noLeadingDigit rest) :
    scanNat (natToDigits n ++ rest) = some (n, rest) := by
  cases hnd : natToDigits n with
  | nil => exact absurd hnd (natToDigits_ne_nil n)
  | cons c cs =>
    have hdig : c.isDigit = true := by
      apply natToDigits_all_digit n
      rw [hnd]
      simp
    have hscan : scanDigits (natToDigits n ++ rest) 0 = (n, rest) := by
      rw [scanDigits_natToDigits, scanDigits_stop rest _ h]
      simp
    rw [hnd, List.cons_append] at hscan
    simp [scanNat, hdig, hscan]

lemma intToDigits_nonneg {i : Int} (h : 0 ≤ i) : intToDigits i = natToDigits i.toNat := by
  simp [intToDigits, not_lt.mpr h]

lemma natToDigits_lt_ten {n : Nat} (h : n < 10) : natToDigits n = [digitChar n] := by
  rw [natToDigits]
  simp [h]

lemma natToDigits_two_digit {n : Nat} (h10 : 10 ≤ n) (h100 : n < 100) :
    natToDigits n = [digitChar (n / 10), digitChar (n % 10)] := by
  rw [natToDigits]
  have : ¬ n < 10 := by omega
  simp only [this, dite_false]
  rw [natToDigits_lt_ten (by omega : n / 10 < 10)]
  simp

lemma scanUpTo2_pad2 (i : Int) (h0 : 0 ≤ i) (h : i < 100) (rest : List Char) :
    scanUpTo2 (pad2 i ++ rest) = some (i.toNat, rest) := by
  by_cases hlt : i < 10
  · have hn : i.toNat < 10 := by omega
    have hz : digitVal '0' = 0 := by decide
    rw [pad2, if_pos ⟨h0, hlt⟩, natToDigits_lt_ten hn]
    simp [scanUpTo2, digitChar_isDigit hn, digitVal_digitChar hn, hz]
  · have h10 : 10 ≤ i.toNat := by omega
    have h100 : i.toNat < 100 := by omega
    have hq : i.toNat / 10 < 10 := by omega
    have hr : i.toNat % 10 < 10 := by omega
    rw [pad2, if_neg (by omega), intToDigits_nonneg h0, natToDigits_two_digit h10 h100]
    simp [scanUpTo2, digitChar_isDigit hq, digitChar_isDigit hr,
      digitVal_digitChar hq, digitVal_digitChar hr]
    omega

/-- A well-formed video time: calendar-range fields, zero milliseconds, and a
day count small enough that the C `int` arithmetic in the source stays in
range (no undefined behaviour). -/
def WellFormedVideotime (vt : videotime_s) : Prop :=
  0 ≤ vt.days ∧ vt.days < 24855 ∧
  0 ≤ vt.hours ∧ vt.hours < 24 ∧
  0 ≤ vt.mins ∧ vt.mins < 60 ∧
  0 ≤ vt.secs ∧ vt.secs < 60 ∧
  vt.msecs = 0

instance (vt : videotime_s) : Decidable (WellFormedVideotime vt) := by
  unfold WellFormedVideotime
  infer_instance

lemma str_to_videotime_of_str (vt : videotime_s) (h : WellFormedVideotime vt) :
    str_to_videotime (videotime_to_str vt) = some vt := by
  obtain ⟨hd0, hd1, hh0, hh1, hm0, hm1, hs0, hs1, hms⟩ := h
  have hdot : ('.').isDigit = false := by decide
  have hcolon : (':').isDigit = false := by decide
  unfold str_to_videotime videotime_to_str
  simp only [String.data]
  rw [intToDigits_nonneg hd0]
  simp only [List.cons_append, List.append_assoc]
  rw [scanNat_append vt.days.toNat _ (noLeadingDigit_cons hdot _)]
  simp only [Option.bind_eq_bind, Option.some_bind]
  rw [expectChar, if_pos rfl]
  simp only [Option.some_bind]
  rw [scanUpTo2_pad2 vt.hours hh0 (by omega) _]
  simp only [Option.some_bind]
  rw [expectChar, if_pos rfl]
  simp only [Option.some_bind]
  rw [scanUpTo2_pad2 vt.mins hm0 (by omega) _]
  simp only [Option.some_bind]
  rw [expectChar, if_pos rfl]
  simp only [Option.some_bind]
  rw [scanUpTo2_pad2 vt.secs hs0 (by omega) _]
  simp only [Option.some_bind]
  rw [expectChar, if_pos rfl]
  simp only [Option.some_bind]
  rw [hms]
  rw [intToDigits_nonneg le_rfl]
  rw [← List.append_nil (natToDigits (Int.toNat 0))]
  rw [scanNat_append (Int.toNat 0) [] noLeadingDigit_nil]
  simp only [Option.some_bind, Option.pure_def, Option.some_inj]
  have : ((0:Int).toNat : Int) = 0 := by simp
  cases vt
  simp_all

lemma pcr_videotime_roundtrip (vt : videotime_s) (h : WellFormedVideotime vt) :
    pcr_to_videotime (videotime_to_pcr vt) = vt := by
  obtain ⟨hd0, hd1, hh0, hh1, hm0, hm1, hs0, hs1, hms⟩ := h
  have hpcr : videotime_to_pcr vt =
      (vt.days * 86400 + vt.hours * 3600 + vt.mins * 60 + vt.secs) * 27000000 := by
    unfold videotime_to_pcr
    rw [hms]
    ring
  set T := vt.days * 86400 + vt.hours * 3600 + vt.mins * 60 + vt.secs with hT
  have hT0 : 0 ≤ T := by omega
  have hp0 : 0 ≤ T * 27000000 := by positivity
  rw [hpcr, pcr_to_videotime_eq _ hp0]
  have hTdiv : T * 27000000 / 27000000 = T := Int.mul_ediv_cancel T (by norm_num)
  rw [hTdiv]
  have h1 : T / 86400 = vt.days := by omega
  have h2 : T % 86400 / 3600 = vt.hours := by omega
  have h3 : T % 86400 % 3600 / 60 = vt.mins := by omega
  have h4 : T % 86400 % 3600 % 60 = vt.secs := by omega
  rw [h1, h2, h3, h4]
  cases vt
  simp_all

/-- The full `-s`/`-e` time-string pipeline of the slicer:
parse (`str_to_videotime`), convert to a 27 MHz PCR (`videotime_to_pcr`),
convert back (`pcr_to_videotime`) and re-render (`videotime_to_str`). -/
def pcr_time_roundtrip (s : String) : Option String :=
  (str_to_videotime s).map
    (fun vt => videotime_to_str (pcr_to_videotime (videotime_to_pcr vt)))

/-- **C7.**  For every well-formed stream-time string `D.HH:MM:SS.mmm` whose
milliseconds field is 0 (rendered from in-range fields), the composition
`str_to_videotime`, `videotime_to_pcr`, `pcr_to_videotime`,
`videotime_to_str` returns the original string. -/
theorem C7_time_string_roundtrip (vt : videotime_s) (h : WellFormedVideotime vt) :
    pcr_time_roundtrip (videotime_to_str vt) = some (videotime_to_str vt) := by
  unfold pcr_time_roundtrip
  rw [str_to_videotime_of_str vt h, Option.map_some', pcr_videotime_roundtrip vt h]

/-- Witness for C7 at the string `1.02:03:04.0`. -/
theorem C7_time_string_roundtrip_witness :
    WellFormedVideotime ⟨1, 2, 3, 4, 0⟩ ∧
    pcr_time_roundtrip (videotime_to_str ⟨1, 2, 3, 4, 0⟩)
      = some (videotime_to_str ⟨1, 2, 3, 4, 0⟩) :=
  ⟨by decide, C7_time_string_roundtrip ⟨1, 2, 3, 4, 0⟩ (by decide)⟩

/-! ## PCR index records and queries (slicer.c lines 178-274, 457-477) -/

/-- `struct ltntstools_pcr_position_s` from libltntstools:
`{ offset : u64, pid : u16, pcr : i64 }` (spec section 3, `PcrPosition`). -/
structure ltntstools_pcr_position_s where
  offset : Nat
  pid : Nat
  pcr : Int
deriving DecidableEq, Repr

/-- Embeds `indexLookupPCR` (slicer.c lines 178-185): linear scan, return the
first record whose PCR is `≥` the query, else NULL (`none`). -/
def indexLookupPCR : List ltntstools_pcr_position_s → Int → Option ltntstools_pcr_position_s
  | [], _ => none
  | r :: rs, pcr => if pcr ≤ r.pcr then some r else indexLookupPCR rs pcr

/-- Everything `indexFastQueryDuration` writes through its out-pointers,
plus its return code.  A `none` field means the pointer was never written. -/
structure FastQueryOut where
  ret : Int
  beginRec : Option ltntstools_pcr_position_s
  endRec : Option ltntstools_pcr_position_s
  durationTicks : Option Int
  streamTime : Option videotime_s
  fileSize : Option Int
deriving DecidableEq, Repr

/-- Embeds `indexFastQueryDuration` (slicer.c lines 187-274).  The file
system is abstracted: `file = none` models `fopen` failure, otherwise
`file = some fileLen`.  The external scanner `ltntstools_queryPCRs` is
abstracted as `queryPCRs addr len`, the list of PCR position records found
in the `len` bytes starting at byte `addr` of the file.  `fnameNull`,
`beginNull`, `endNull` model NULL argument pointers.  The source `memcpy`s
from `segs[i].arr` without a length check; an empty scan result (which
would be undefined behaviour in C) yields `none` here via `head?`/`getLast?`. -/
def indexFastQueryDuration (fnameNull beginNull endNull : Bool)
    (file : Option Nat) (queryPCRs : Nat → Nat → List ltntstools_pcr_position_s) :
    FastQueryOut :=
  if fnameNull || beginNull || endNull then
    { ret := -1, beginRec := none, endRec := none, durationTicks := none,
      streamTime := none, fileSize := none }
  else
    match file with
    | none =>
      { ret := -1, beginRec := none, endRec := none, durationTicks := none,
        streamTime := none, fileSize := none }
    | some lengthBytes =>
      let segs :=
        if lengthBytes < 32 * 1048576 then
          (queryPCRs 0 lengthBytes, queryPCRs 0 lengthBytes)
        else
          (queryPCRs 0 (16 * 1048576),
           queryPCRs (lengthBytes - 16 * 1048576) (16 * 1048576))
      let b := segs.1.head?
      let e := segs.2.getLast?
      match b, e with
      | some br, some er =>
        { ret := 0, beginRec := some br, endRec := some er,
          durationTicks := some (er.pcr - br.pcr),
          streamTime := some (pcr_to_videotime (er.pcr - br.pcr)),
          fileSize := some (lengthBytes : Int) }
      | _, _ =>
        { ret := 0, beginRec := b, endRec := e, durationTicks := none,
          streamTime := none, fileSize := some (lengthBytes : Int) }

/-- The block size of the slicer copy loop: `188 * 64` bytes. -/
def sliceBlen : Nat := 188 * 64

/-- Embeds the copy loop of `slicer` (slicer.c lines 462-470):
`for (begin = s->offset; begin < e->offset; begin += blen)` reading up to
`blen` bytes sequentially from `readPos` (bounded by the file length) and
writing every byte read.  Returns the total number of bytes written. -/
def sliceCopy (fileLen readPos bpos eOff : Nat) : Nat :=
  if bpos < eOff then
    let rlen := min sliceBlen (fileLen - readPos)
    rlen + sliceCopy fileLen (readPos + rlen) (bpos + sliceBlen) eOff
  else 0
termination_by eOff - bpos
decreasing_by simp only [sliceBlen]; omega

/-- Total bytes the slicer writes to the output file for start offset `sOff`
and end offset `eOff` on an input file of `fileLen` bytes (the source seeks
to `s->offset` first, so reading starts there). -/
def slicerWriteBytes (fileLen sOff eOff : Nat) : Nat :=
  sliceCopy fileLen sOff sOff eOff

/-- Number of loop iterations: `⌈(eOff − sOff) / blen⌉`. -/
def sliceBlocks (d : Nat) : Nat := (d + sliceBlen - 1) / sliceBlen

/-- **C9.**  `indexLookupPCR` returns the lowest-index record whose PCR is
`≥` the query when one exists, and `none` (NULL) when every record's PCR is
below the query. -/
theorem C9_indexLookupPCR_first_ge (arr : List ltntstools_pcr_position_s) (q : Int) :
    (indexLookupPCR arr q = none ↔ ∀ r ∈ arr, r.pcr < q) ∧
    (∀ r, indexLookupPCR arr q = some r →
      q ≤ r.pcr ∧ ∃ i, ∃ hi : i < arr.length, arr[i] = r ∧
        ∀ j, ∀ hj : j < arr.length, j < i → (arr[j]).pcr < q) ∧
    ((∃ r ∈ arr, q ≤ r.pcr) → indexLookupPCR arr q ≠ none) := by
  induction arr with
  | nil =>
    refine ⟨by simp [indexLookupPCR], by simp [indexLookupPCR], by simp⟩
  | cons a as ih =>
    by_cases hq : q ≤ a.pcr
    · refine ⟨?_, ?_, ?_⟩
      · simp only [indexLookupPCR, if_pos hq]
        constructor
        · intro h
          exact absurd h (by simp)
        · intro h
          exact absurd (h a (by simp)) (by omega)
      · intro r hr
        simp only [indexLookupPCR, if_pos hq, Option.some_inj] at hr
        subst hr
        exact ⟨hq, 0, by simp, by simp, fun j hj hj0 => absurd hj0 (by omega)⟩
      · intro _
        simp [indexLookupPCR, if_pos hq]
    · refine ⟨?_, ?_, ?_⟩
      · simp only [indexLookupPCR, if_neg hq]
        rw [ih.1]
        constructor
        · intro h r hr
          rcases List.mem_cons.mp hr with h' | h'
          · subst h'; omega
          · exact h r h'
        · intro h r hr
          exact h r (List.mem_cons_of_mem _ hr)
      · intro r hr
        simp only [indexLookupPCR, if_neg hq] at hr
        obtain ⟨hle, i, hi, hget, hbefore⟩ := (ih.2.1) r hr
        refine ⟨hle, i + 1, by simpa using Nat.succ_lt_succ hi, by simpa using hget, ?_⟩
        intro j hj hji
        cases j with
        | zero => simpa using (by omega : a.pcr < q)
        | succ k =>
          have hk : k < as.length := by simpa using hj
          have := hbefore k hk (by omega)
          simpa using this
      · intro ⟨r, hr, hle⟩
        rcases List.mem_cons.mp hr with h' | h'
        · subst h'; omega
        · simp only [indexLookupPCR, if_neg hq]
          exact ih.2.2 ⟨r, h', hle⟩

/-- Witness for C9: querying `[{pcr 5}, {pcr 10}]` with `q = 7` returns the
record with PCR 10, the lowest-index record at or above the query. -/
theorem C9_indexLookupPCR_first_ge_witness :
    (7:Int) ≤ (⟨188, 0, 10⟩ : ltntstools_pcr_position_s).pcr ∧
    ∃ i, ∃ hi : i < ([⟨0, 0, 5⟩, ⟨188, 0, 10⟩] :
        List ltntstools_pcr_position_s).length,
      ([⟨0, 0, 5⟩, ⟨188, 0, 10⟩] : List ltntstools_pcr_position_s)[i]
          = ⟨188, 0, 10⟩ ∧
      ∀ j, ∀ hj : j < ([⟨0, 0, 5⟩, ⟨188, 0, 10⟩] :
          List ltntstools_pcr_position_s).length, j < i →
        (([⟨0, 0, 5⟩, ⟨188, 0, 10⟩] : List ltntstools_pcr_position_s)[j]).pcr < 7 :=
  (C9_indexLookupPCR_first_ge [⟨0, 0, 5⟩, ⟨188, 0, 10⟩] 7).2.1 ⟨188, 0, 10⟩ (by decide)

lemma sliceBlocks_step {d : Nat} (h : 0 < d) :
    sliceBlocks d = sliceBlocks (d - sliceBlen) + 1 := by
  simp only [sliceBlocks, sliceBlen]
  omega

lemma sliceCopy_full : ∀ (d fileLen readPos bpos eOff : Nat), eOff - bpos = d →
    readPos + sliceBlocks d * sliceBlen ≤ fileLen →
    sliceCopy fileLen readPos bpos eOff = sliceBlocks d * sliceBlen := by
  intro d
  induction d using Nat.strong_induction_on with
  | _ d ih =>
    intro fileLen readPos bpos eOff hd hfl
    rw [sliceCopy]
    by_cases hb : bpos < eOff
    · rw [if_pos hb]
      have hd1 : 0 < d := by omega
      have hblocks := sliceBlocks_step hd1
      rw [hblocks, Nat.add_mul, one_mul] at hfl
      have hrlen : min sliceBlen (fileLen - readPos) = sliceBlen := by
        simp only [sliceBlen] at hfl ⊢
        omega
      simp only [hrlen]
      have hlt : d - sliceBlen < d := by
        simp only [sliceBlen]
        omega
      have hrec := ih (d - sliceBlen) hlt fileLen (readPos + sliceBlen)
        (bpos + sliceBlen) eOff (by simp only [sliceBlen] at hd ⊢; omega)
        (by omega)
      rw [hrec, hblocks]
      ring
    · rw [if_neg hb]
      have hd0 : d = 0 := by omega
      subst hd0
      simp [sliceBlocks, sliceBlen]

/-- **C1 (amended).**  With valid index records `s ≤ e` and an input file
long enough to feed every read in full, the slicer writes exactly
`⌈(e.offset − s.offset) / 12032⌉ · 12032` bytes — a whole multiple of 188
and of the block size, equal to `e.offset − s.offset` exactly when that
span is a multiple of the 12032-byte block. -/
theorem C1_slicer_writes_blocks (fileLen sOff eOff : Nat) (hse : sOff ≤ eOff)
    (hfl : sOff + sliceBlocks (eOff - sOff) * sliceBlen ≤ fileLen) :
    slicerWriteBytes fileLen sOff eOff = sliceBlocks (eOff - sOff) * sliceBlen ∧
    188 ∣ slicerWriteBytes fileLen sOff eOff ∧
    (sliceBlen ∣ (eOff - sOff) →
      slicerWriteBytes fileLen sOff eOff = eOff - sOff) := by
  have hmain := sliceCopy_full (eOff - sOff) fileLen sOff sOff eOff rfl hfl
  refine ⟨hmain, ?_, ?_⟩
  · rw [slicerWriteBytes, hmain]
    exact ⟨sliceBlocks (eOff - sOff) * 64, by simp only [sliceBlen]; ring⟩
  · rintro ⟨k, hk⟩
    rw [slicerWriteBytes, hmain, hk]
    simp only [sliceBlocks, sliceBlen] at *
    omega

/-- Witness for C1 at a 36096-byte file, slicing offsets 0 to 24064
(two whole blocks). -/
theorem C1_slicer_writes_blocks_witness :
    slicerWriteBytes 36096 0 24064 = 24064 :=
  (C1_slicer_writes_blocks 36096 0 24064 (by norm_num)
    (by norm_num [sliceBlocks, sliceBlen])).2.2 ⟨2, by norm_num [sliceBlen]⟩

/-- **C1 counterexample.**  Slicing from offset 0 to offset 188 (one TS
packet) of a 24064-byte file writes 12032 bytes, not the
`e.offset − s.offset = 188` bytes the claim states: the loop always writes
whole 12032-byte blocks when the input file is long enough. -/
theorem C1_slicer_writes_counterexample :
    slicerWriteBytes 24064 0 188 = 12032 ∧
    slicerWriteBytes 24064 0 188 ≠ 188 - 0 := by
  have h := sliceCopy_full 188 24064 0 0 188 rfl (by norm_num [sliceBlocks, sliceBlen])
  rw [slicerWriteBytes, h]
  norm_num [sliceBlocks, sliceBlen]

/-- Modelled from the spec: `MAX_SCR` (section 3), the 27 MHz clock modulus
`2^33 · 300`, a constant of the external libltntstools library. -/
def MAX_SCR_VALUE : Int := 2 ^ 33 * 300

/-- The failure output of `indexFastQueryDuration`: return -1, nothing
written through any out-pointer. -/
def fastQueryFail : FastQueryOut :=
  { ret := -1, beginRec := none, endRec := none, durationTicks := none,
    streamTime := none, fileSize := none }

/-- **C2 (amended).**  `indexFastQueryDuration` sets `*durationTicks` to the
plain (signed, not wrap-corrected) difference `end.pcr − begin.pcr`, where
`begin` is the first PCR record of the head segment and `end` the last PCR
record of the tail segment; for a file of at least 32 MiB the head segment
is the first 16 MiB and the tail segment the last 16 MiB, and the result
depends on no other byte range of the file. -/
theorem C2_indexFastQueryDuration_duration (fileLen : Nat)
    (q : Nat → Nat → List ltntstools_pcr_position_s)
    (b e : ltntstools_pcr_position_s)
    (hb : (if fileLen < 32 * 1048576 then q 0 fileLen
           else q 0 (16 * 1048576)).head? = some b)
    (he : (if fileLen < 32 * 1048576 then q 0 fileLen
           else q (fileLen - 16 * 1048576) (16 * 1048576)).getLast? = some e) :
    indexFastQueryDuration false false false (some fileLen) q =
      { ret := 0, beginRec := some b, endRec := some e,
        durationTicks := some (e.pcr - b.pcr),
        streamTime := some (pcr_to_videotime (e.pcr - b.pcr)),
        fileSize := some (fileLen : Int) } ∧
    (32 * 1048576 ≤ fileLen →
      ∀ q2 : Nat → Nat → List ltntstools_pcr_position_s,
        q2 0 (16 * 1048576) = q 0 (16 * 1048576) →
        q2 (fileLen - 16 * 1048576) (16 * 1048576)
          = q (fileLen - 16 * 1048576) (16 * 1048576) →
        indexFastQueryDuration false false false (some fileLen) q2 =
          indexFastQueryDuration false false false (some fileLen) q) := by
  constructor
  · by_cases hlen : fileLen < 32 * 1048576
    · rw [if_pos hlen] at hb he
      simp [indexFastQueryDuration, hlen, hb, he]
    · rw [if_neg hlen] at hb he
      simp [indexFastQueryDuration, hlen, hb, he]
  · intro hbig q2 h1 h2
    have hlen : ¬ fileLen < 32 * 1048576 := by omega
    simp [indexFastQueryDuration, hlen, h1, h2]

/-- Witness for C2 (amended) on a 32 MiB file whose head segment starts with
PCR 1000 and whose tail segment ends with PCR 28001000: the duration written
is 28000000 ticks. -/
theorem C2_indexFastQueryDuration_duration_witness :
    (indexFastQueryDuration false false false (some (32 * 1048576))
        (fun addr len => if addr = 0 then [⟨0, 0x31, 1000⟩]
          else [⟨188, 0x31, 28001000⟩])).durationTicks
      = some ((28001000 : Int) - 1000) := by
  have h := (C2_indexFastQueryDuration_duration (32 * 1048576)
    (fun addr len => if addr = 0 then [⟨0, 0x31, 1000⟩]
      else [⟨188, 0x31, 28001000⟩])
    ⟨0, 0x31, 1000⟩ ⟨188, 0x31, 28001000⟩ (by norm_num) (by norm_num)).1
  rw [h]

/-- The scan result used by the C2 counterexample: the stream's PCR wraps
between the head and the tail of the file (begin PCR just below the 27 MHz
modulus, end PCR just past the wrap). -/
def queryPCRs_wrapExample (addr len : Nat) : List ltntstools_pcr_position_s :=
  [⟨0, 0x31, MAX_SCR_VALUE - 100⟩, ⟨188, 0x31, 0⟩]

/-- **C2 counterexample.**  When the PCR wraps between `begin` and `end`,
the code stores the plain signed difference `end.pcr − begin.pcr`
(here a large negative number), not the wrap-aware value modulo `MAX_SCR`
(here 100): `*durationTicks = end->pcr - begin->pcr` performs no modular
reduction. -/
theorem C2_indexFastQueryDuration_counterexample :
    (indexFastQueryDuration false false false (some 1000)
        queryPCRs_wrapExample).durationTicks
      = some ((0 : Int) - (MAX_SCR_VALUE - 100)) ∧
    ((0 : Int) - (MAX_SCR_VALUE - 100)) % MAX_SCR_VALUE = 100 ∧
    (indexFastQueryDuration false false false (some 1000)
        queryPCRs_wrapExample).durationTicks
      ≠ some (((0 : Int) - (MAX_SCR_VALUE - 100)) % MAX_SCR_VALUE) := by
  refine ⟨by decide, by decide, by decide⟩

/-- **C10.**  `indexFastQueryDuration` returns -1 with every out-parameter
unwritten exactly on a NULL `fname`, `begin` or `end` argument or an input
file that cannot be opened; it returns 0 only when the arguments are
non-NULL and the file opens. -/
theorem C10_indexFastQueryDuration_errors (fnameNull beginNull endNull : Bool)
    (file : Option Nat) (q : Nat → Nat → List ltntstools_pcr_position_s) :
    ((fnameNull || beginNull || endNull) = true ∨ file = none →
      indexFastQueryDuration fnameNull beginNull endNull file q = fastQueryFail) ∧
    ((indexFastQueryDuration fnameNull beginNull endNull file q).ret = 0 ↔
      (fnameNull = false ∧ beginNull = false ∧ endNull = false ∧ file ≠ none)) := by
  constructor
  · rintro (h | h)
    · simp [indexFastQueryDuration, h, fastQueryFail]
    · subst h
      cases hf : (fnameNull || beginNull || endNull) <;>
        simp [indexFastQueryDuration, hf, fastQueryFail]
  · by_cases hf : (fnameNull || beginNull || endNull) = true
    · simp only [indexFastQueryDuration, hf, if_true]
      constructor
      · intro h
        exact absurd h (by norm_num [fastQueryFail])
      · intro ⟨h1, h2, h3, _⟩
        rw [h1, h2, h3] at hf
        simp at hf
    · have hflags : fnameNull = false ∧ beginNull = false ∧ endNull = false := by
        cases fnameNull <;> cases beginNull <;> cases endNull <;> simp_all
      cases file with
      | none =>
        simp [indexFastQueryDuration, hf]
      | some lengthBytes =>
        simp only [indexFastQueryDuration, hf, if_false, Bool.false_eq_true]
        constructor
        · intro _
          exact ⟨hflags.1, hflags.2.1, hflags.2.2, by simp⟩
        · intro _
          cases hb : (if lengthBytes < 32 * 1048576 then
              (q 0 lengthBytes, q 0 lengthBytes)
            else (q 0 (16 * 1048576),
              q (lengthBytes - 16 * 1048576) (16 * 1048576))).1.head? <;>
          cases he : (if lengthBytes < 32 * 1048576 then
              (q 0 lengthBytes, q 0 lengthBytes)
            else (q 0 (16 * 1048576),
              q (lengthBytes - 16 * 1048576) (16 * 1048576))).2.getLast? <;>
            simp [hb, he]
  
/-- Witness for C10: a NULL `begin` pointer yields the untouched failure
output. -/
theorem C10_indexFastQueryDuration_errors_witness :
    indexFastQueryDuration false true false (some 1000)
        queryPCRs_wrapExample = fastQueryFail :=
  (C10_indexFastQueryDuration_errors false true false (some 1000)
    queryPCRs_wrapExample).1 (Or.inl rfl)

/-! ## Clock inspector: per-packet continuity statistics
(slicer.c lines 537-542, 1181-1228) -/

/-- Modelled from the spec (section 4.B): libltntstools TS accessor — PID
from bytes 1-2 under mask 0x1FFF. -/
def ltntstools_pid (pkt : List Nat) : Nat :=
  ((pkt.getD 1 0 &&& 0x1f) <<< 8) ||| pkt.getD 2 0

/-- Modelled from the spec (section 4.B): libltntstools TS accessor —
continuity counter from byte 3 bits 3-0. -/
def ltntstools_continuity_counter (pkt : List Nat) : Nat :=
  pkt.getD 3 0 &&& 0x0f

/-- Modelled from the spec (section 4.B): libltntstools TS accessor —
adaptation field control from byte 3 bits 5-4. -/
def ltntstools_adaption_field_control (pkt : List Nat) : Nat :=
  (pkt.getD 3 0 >>> 4) &&& 0x03

/-- The continuity-check slice of `struct pid_s` (slicer.c lines 537-542). -/
structure pid_s where
  pkt_count : Nat
  cc : Nat
  cc_errors : Nat
deriving DecidableEq, Repr

/-- A `!CC Error` report line: PID, expected CC, got CC. -/
structure CCError where
  pid : Nat
  expected : Nat
  got : Nat
deriving DecidableEq, Repr

/-- Embeds `processPacketStats` (slicer.c lines 1181-1228), restricted to
its observable continuity behaviour (the hex-dump branch only prints).
Returns the updated per-PID table and the emitted `!CC Error` line, if
any. -/
def processPacketStats (pids : Nat → pid_s) (pkt : List Nat) :
    (Nat → pid_s) × Option CCError :=
  let pid := ltntstools_pid pkt
  let p0 := pids pid
  let p1 : pid_s := { p0 with pkt_count := p0.pkt_count + 1 }
  let cc := ltntstools_continuity_counter pkt
  let afc := ltntstools_adaption_field_control pkt
  let err : Option CCError :=
    if afc = 1 ∨ afc = 3 then
      if p1.pkt_count > 1 then
        if ((p0.cc + 1) &&& 0x0f) ≠ cc then
          if pid ≠ 0x1fff then some ⟨pid, (p0.cc + 1) &&& 0x0f, cc⟩
          else none
        else none
      else none
    else none
  let p2 : pid_s :=
    ⟨p1.pkt_count, cc, p1.cc_errors + (if err.isSome then 1 else 0)⟩
  (fun i => if i = pid then p2 else pids i, err)

/-- Feed a packet list through `processPacketStats`, collecting every
emitted `!CC Error` line in order. -/
def runPacketStats (pids : Nat → pid_s) :
    List (List Nat) → (Nat → pid_s) × List CCError
  | [] => (pids, [])
  | pkt :: rest =>
    let step := processPacketStats pids pkt
    let tail := runPacketStats step.1 rest
    (tail.1, (step.2.toList) ++ tail.2)

/-- A minimal TS packet: sync byte, the given 13-bit PID, `afc = 1`
(payload only) and the given continuity counter. -/
def mkPacket (pid cc : Nat) : List Nat :=
  [0x47, (pid >>> 8) &&& 0x1f, pid &&& 0xff, 0x10 ||| (cc &&& 0x0f)]

/-- The zero-initialised PID table (`calloc` of `tool_context_s`). -/
def initPids : Nat → pid_s := fun _ => ⟨0, 0, 0⟩

lemma and_fifteen (x : Nat) : x &&& 15 = x % 16 := by
  have h := Nat.and_pow_two_sub_one_eq_mod x 4
  norm_num at h
  exact h

/-- **C3.**  `processPacketStats` emits a `!CC Error` line and increments
`cc_errors` for the packet's PID exactly when `afc ∈ {1,3}`, the packet is
not the first seen on that PID, the PID is not 0x1FFF, and the continuity
counter differs from `(previous cc + 1) mod 16`; the emitted line carries
the expected and received counters.  In particular a wrap from cc 15 to
cc 0 raises no error, and the sequence 0,1,2,3,5,6,7,8,9,10 on PID 0x100
raises exactly one error reporting expected 04 got 05. -/
theorem C3_processPacketStats_cc_check :
    (∀ (pids : Nat → pid_s) (pkt : List Nat),
      ((processPacketStats pids pkt).2.isSome = true ↔
        ((ltntstools_adaption_field_control pkt = 1 ∨
            ltntstools_adaption_field_control pkt = 3) ∧
          1 ≤ (pids (ltntstools_pid pkt)).pkt_count ∧
          ltntstools_pid pkt ≠ 0x1fff ∧
          ltntstools_continuity_counter pkt ≠
            ((pids (ltntstools_pid pkt)).cc + 1) % 16)) ∧
      ((processPacketStats pids pkt).1 (ltntstools_pid pkt)).cc_errors =
        (pids (ltntstools_pid pkt)).cc_errors +
          (if (processPacketStats pids pkt).2.isSome then 1 else 0) ∧
      (∀ e, (processPacketStats pids pkt).2 = some e →
        e.pid = ltntstools_pid pkt ∧
        e.expected = ((pids (ltntstools_pid pkt)).cc + 1) % 16 ∧
        e.got = ltntstools_continuity_counter pkt)) ∧
    (processPacketStats (fun _ => ⟨5, 15, 0⟩) (mkPacket 0x100 0)).2 = none ∧
    (runPacketStats initPids
        ([0, 1, 2, 3, 5, 6, 7, 8, 9, 10].map (mkPacket 0x100))).2
      = [⟨0x100, 4, 5⟩] := by
  refine ⟨fun pids pkt => ?_, by decide, by decide⟩
  simp only [processPacketStats, and_fifteen]
  refine ⟨?_, ?_, ?_⟩
  · split_ifs with h1 h2 h3 h4 <;> simp_all <;> omega
  · simp
  · intro e he
    split_ifs at he with h1 h2 h3 h4
    simp only [Option.some_inj] at he
    subst he
    exact ⟨rfl, rfl, rfl⟩

/-- Witness for C3: state `{pkt_count 1, cc 3}` on PID 0x100 receiving a
packet with cc 5 yields the error line expected 04 got 05. -/
theorem C3_processPacketStats_cc_check_witness :
    (⟨0x100, 4, 5⟩ : CCError).pid = ltntstools_pid (mkPacket 0x100 5) ∧
    (⟨0x100, 4, 5⟩ : CCError).expected
      = (((fun _ => (⟨1, 3, 0⟩ : pid_s)) (ltntstools_pid (mkPacket 0x100 5))).cc + 1) % 16 ∧
    (⟨0x100, 4, 5⟩ : CCError).got
      = ltntstools_continuity_counter (mkPacket 0x100 5) :=
  (C3_processPacketStats_cc_check.1 (fun _ => ⟨1, 3, 0⟩) (mkPacket 0x100 5)).2.2
    ⟨0x100, 4, 5⟩ (by decide)

/-! ## Clock inspector: PTS drift handling in `processPESHeader`
(slicer.c lines 869-964) -/

/-- Modelled from the spec (section 3): `MAX_PTS`, the 90 kHz PTS/DTS
modulus `2^33`, a constant of the external libltntstools library. -/
def MAX_PTS_VALUE : Int := 2 ^ 33

/-- Modelled from the spec (section 4.A): libltntstools `pts_diff(a, b)`
returns `b − a` reduced modulo `MAX_PTS` into `[0, MAX_PTS)` (the modulus is
added whenever the raw difference is negative). -/
def ltntstools_pts_diff (a b : Int) : Int := (b - a) % MAX_PTS_VALUE

/-- Modelled from the spec (section 4.A): libltntstools
`PTS_TICKS_TO_MS(t) = t / 90` with C (truncating) division. -/
def PTS_TICKS_TO_MS (t : Int) : Int := Int.tdiv t 90

/-- Embeds the `pts_diff_ticks` update of `processPESHeader`
(slicer.c lines 869-873): the wrap-aware difference of the previous and
current PTS, corrected by subtracting `MAX_PTS` when it exceeds ten seconds
of 90 kHz ticks. -/
def processPESHeader_pts_diff_ticks (lastPTS currPTS : Int) : Int :=
  let d := ltntstools_pts_diff lastPTS currPTS
  if d > 10 * 90000 then d - MAX_PTS_VALUE else d

/-- Embeds the `!PTS ... Difference ...` warning condition of
`processPESHeader` (slicer.c line 944):
`PTS_TICKS_TO_MS(pts_diff_ticks) >= maxAllowablePTSDTSDrift`. -/
def processPESHeader_pts_drift_warning (maxAllowablePTSDTSDrift diffTicks : Int) : Bool :=
  decide (PTS_TICKS_TO_MS diffTicks ≥ maxAllowablePTSDTSDrift)

/-- **C5.**  `pts_diff_ticks` is the wrap-aware mod-`2^33` difference of
successive PTS values, shifted down by `MAX_PTS` when it exceeds 900000
ticks (10 s): it is always congruent to the raw difference mod `2^33` and
lies in `(900000 − 2^33, 900000]`.  In particular PTS `2^33 − 9000`
followed by PTS `0` gives `pts_diff_ticks = 9000` and raises no drift
warning at the default 700 ms threshold. -/
theorem C5_pts_diff_ticks_wrap :
    (∀ lastPTS currPTS : Int,
      processPESHeader_pts_diff_ticks lastPTS currPTS % MAX_PTS_VALUE
          = (currPTS - lastPTS) % MAX_PTS_VALUE ∧
      900000 - MAX_PTS_VALUE < processPESHeader_pts_diff_ticks lastPTS currPTS ∧
      processPESHeader_pts_diff_ticks lastPTS currPTS ≤ 900000) ∧
    processPESHeader_pts_diff_ticks (2 ^ 33 - 9000) 0 = 9000 ∧
    processPESHeader_pts_drift_warning 700
      (processPESHeader_pts_diff_ticks (2 ^ 33 - 9000) 0) = false := by
  refine ⟨fun lastPTS currPTS => ?_, by decide, by decide⟩
  unfold processPESHeader_pts_diff_ticks ltntstools_pts_diff MAX_PTS_VALUE
  dsimp only
  have hpos : (0:Int) < 2 ^ 33 := by norm_num
  have hnn : 0 ≤ (currPTS - lastPTS) % 2 ^ 33 := Int.emod_nonneg _ (by norm_num)
  have hlt : (currPTS - lastPTS) % 2 ^ 33 < 2 ^ 33 := Int.emod_lt_of_pos _ hpos
  split_ifs with h
  · refine ⟨?_, by omega, by omega⟩
    rw [Int.sub_emod, Int.emod_self, sub_zero]
    simp [Int.emod_emod_of_dvd]
  · exact ⟨Int.emod_emod_of_dvd _ dvd_rfl, by omega, by omega⟩

/-- **C4 counterexample.**  A PTS stepping backwards by 701 ms
(`pts_diff_ticks = −63090`) has `|pts_diff_ms| = 701 > 700`, yet the drift
check `PTS_TICKS_TO_MS(diff) >= 700` raises no warning: the source compares
the signed value, with no absolute value. -/
theorem C4_pts_drift_warning_counterexample :
    processPESHeader_pts_drift_warning 700
        (processPESHeader_pts_diff_ticks 2000000 1936910) = false ∧
    |PTS_TICKS_TO_MS (processPESHeader_pts_diff_ticks 2000000 1936910)| = 701 := by
  refine ⟨by decide, by decide⟩

/-- **C4 (amended).**  For any positive threshold, the `!PTS ... Difference`
drift warning fires exactly when the *signed* `pts_diff_ticks` reaches
`90 · max_allowable_drift_ms` ticks (no absolute value is taken; backwards
drifts never warn).  In particular successive PTS 0 then 63000 — a
difference of exactly +700 ms — warns at the default 700 ms threshold,
reporting `is 700`. -/
theorem C4_pts_drift_warning_signed (maxDrift lastPTS currPTS : Int)
    (hm : 1 ≤ maxDrift) :
    (processPESHeader_pts_drift_warning maxDrift
        (processPESHeader_pts_diff_ticks lastPTS currPTS) = true ↔
      90 * maxDrift ≤ processPESHeader_pts_diff_ticks lastPTS currPTS) ∧
    processPESHeader_pts_drift_warning 700
      (processPESHeader_pts_diff_ticks 0 63000) = true ∧
    PTS_TICKS_TO_MS (processPESHeader_pts_diff_ticks 0 63000) = 700 := by
  refine ⟨?_, by decide, by decide⟩
  set d := processPESHeader_pts_diff_ticks lastPTS currPTS with hd
  simp only [processPESHeader_pts_drift_warning, PTS_TICKS_TO_MS, ge_iff_le,
    decide_eq_true_eq]
  by_cases hdn : 0 ≤ d
  · rw [Int.tdiv_eq_ediv hdn (by norm_num)]
    rw [Int.le_ediv_iff_mul_le (by norm_num : (0:Int) < 90)]
    constructor <;> intro h <;> omega
  · have h1 : d.tdiv 90 ≤ 0 := by
      have h2 : (0:Int) ≤ -d := by omega
      have h3 : 0 ≤ (-d).tdiv 90 := Int.tdiv_nonneg h2 (by norm_num)
      have h4 : (-d).tdiv 90 = -(d.tdiv 90) := Int.neg_tdiv d 90
      omega
    constructor <;> intro h <;> omega

/-- Witness for C4 (amended) at the default threshold and PTS pair 0, 63000. -/
theorem C4_pts_drift_warning_signed_witness :
    (1:Int) ≤ 700 ∧
    (processPESHeader_pts_drift_warning 700
        (processPESHeader_pts_diff_ticks 0 63000) = true ↔
      90 * 700 ≤ processPESHeader_pts_diff_ticks 0 63000) :=
  ⟨by norm_num, (C4_pts_drift_warning_signed 700 0 63000 (by norm_num)).1⟩

/-! ## Clock inspector: ordered PTS list (slicer.c lines 529-535, 638-656) -/

/-- `struct ordered_clock_item_s` (slicer.c lines 529-535). -/
structure ordered_clock_item_s where
  nr : Nat
  clock : Int
  filepos : Nat
deriving DecidableEq, Repr

/-- The backwards tail scan of `ordered_clock_insert`
(`xorg_list_for_each_entry_reverse`, slicer.c lines 649-655), expressed on
the reversed list: insert `src` in front of the first node whose clock is
`≤ src.clock`; if the scan reaches the head without a match, the function
returns without linking the node, leaving the list unchanged. -/
def ordered_clock_insert_scan (src : ordered_clock_item_s) :
    List ordered_clock_item_s → List ordered_clock_item_s
  | [] => []
  | x :: xs =>
    if src.clock ≥ x.clock then src :: x :: xs
    else x :: ordered_clock_insert_scan src xs

/-- Embeds `ordered_clock_insert` (slicer.c lines 638-656): append to an
empty list, otherwise scan from the tail backwards. -/
def ordered_clock_insert (l : List ordered_clock_item_s)
    (src : ordered_clock_item_s) : List ordered_clock_item_s :=
  if l.isEmpty then [src]
  else (ordered_clock_insert_scan src l.reverse).reverse

/-- Clock order on list items (non-decreasing PTS). -/
def clockLE (a b : ordered_clock_item_s) : Prop := a.clock ≤ b.clock

/-- Reversed clock order (non-increasing PTS). -/
def clockGE (a b : ordered_clock_item_s) : Prop := b.clock ≤ a.clock

lemma ordered_clock_insert_scan_mem {src y : ordered_clock_item_s} :
    ∀ {rl : List ordered_clock_item_s},
      y ∈ ordered_clock_insert_scan src rl → y = src ∨ y ∈ rl := by
  intro rl
  induction rl with
  | nil => intro h; exact absurd h (by simp [ordered_clock_insert_scan])
  | cons x xs ih =>
    intro h
    by_cases hc : src.clock ≥ x.clock
    · simp only [ordered_clock_insert_scan, if_pos hc] at h
      rcases List.mem_cons.mp h with h | h
      · exact Or.inl h
      · exact Or.inr h
    · simp only [ordered_clock_insert_scan, if_neg hc] at h
      rcases List.mem_cons.mp h with h | h
      · exact Or.inr (by simp [h])
      · rcases ih h with h | h
        · exact Or.inl h
        · exact Or.inr (by simp [h])

lemma ordered_clock_insert_scan_notfound {src : ordered_clock_item_s} :
    ∀ {rl : List ordered_clock_item_s}, (∀ x ∈ rl, src.clock < x.clock) →
      ordered_clock_insert_scan src rl = rl := by
  intro rl
  induction rl with
  | nil => intro _; rfl
  | cons x xs ih =>
    intro h
    have hx := h x (by simp)
    rw [ordered_clock_insert_scan, if_neg (by omega)]
    rw [ih (fun y hy => h y (by simp [hy]))]

lemma ordered_clock_insert_scan_found {src : ordered_clock_item_s} :
    ∀ {rl : List ordered_clock_item_s}, (∃ x ∈ rl, x.clock ≤ src.clock) →
      ordered_clock_insert_scan src rl
        = rl.takeWhile (fun y => decide (src.clock < y.clock))
          ++ src :: rl.dropWhile (fun y => decide (src.clock < y.clock)) := by
  intro rl
  induction rl with
  | nil => rintro ⟨x, hx, _⟩; exact absurd hx (by simp)
  | cons x xs ih =>
    rintro ⟨w, hw, hwle⟩
    by_cases hc : src.clock ≥ x.clock
    · rw [ordered_clock_insert_scan, if_pos hc]
      rw [List.takeWhile_cons, List.dropWhile_cons]
      simp [not_lt.mpr hc]
    · have hx : src.clock < x.clock := by omega
      have hw' : w ∈ xs := by
        rcases List.mem_cons.mp hw with h | h
        · subst h; omega
        · exact h
      rw [ordered_clock_insert_scan, if_neg (by omega)]
      rw [ih ⟨w, hw', hwle⟩]
      rw [List.takeWhile_cons, List.dropWhile_cons]
      simp [hx]

lemma ordered_clock_insert_scan_sorted {src : ordered_clock_item_s} :
    ∀ {rl : List ordered_clock_item_s}, rl.Sorted clockGE →
      (ordered_clock_insert_scan src rl).Sorted clockGE := by
  intro rl
  induction rl with
  | nil => intro _; simp [ordered_clock_insert_scan]
  | cons x xs ih =>
    intro h
    rw [List.sorted_cons] at h
    obtain ⟨hx, hxs⟩ := h
    by_cases hc : src.clock ≥ x.clock
    · rw [ordered_clock_insert_scan, if_pos hc]
      rw [List.sorted_cons]
      refine ⟨?_, by rw [List.sorted_cons]; exact ⟨hx, hxs⟩⟩
      intro y hy
      rcases List.mem_cons.mp hy with h | h
      · subst h; exact hc
      · have := hx y h
        unfold clockGE at *
        omega
    · rw [ordered_clock_insert_scan, if_neg hc]
      rw [List.sorted_cons]
      refine ⟨?_, ih hxs⟩
      intro y hy
      rcases ordered_clock_insert_scan_mem hy with h | h
      · subst h
        unfold clockGE
        omega
      · exact hx y h

lemma sorted_clockLE_reverse {l : List ordered_clock_item_s} :
    l.reverse.Sorted clockGE ↔ l.Sorted clockLE := by
  unfold List.Sorted
  rw [List.pairwise_reverse]
  rfl

lemma sorted_clockGE_of_reverse {l : List ordered_clock_item_s} :
    l.reverse.Sorted clockLE ↔ l.Sorted clockGE := by
  unfold List.Sorted
  rw [List.pairwise_reverse]
  rfl

/-- **C6 (amended).**  `ordered_clock_insert` preserves the non-decreasing
clock order of the list; it appends to an empty list and, whenever some node
has clock `≤` the new clock, links the new node immediately after the first
such node found scanning from the tail backwards, so the inserted
observation is in the list.  However, when the list is nonempty and every
node's clock is strictly greater than the new clock, the backwards scan
falls off the head and the node is silently dropped: the list is returned
unchanged and does not contain the observation. -/
theorem C6_ordered_clock_insert_props (l : List ordered_clock_item_s)
    (src : ordered_clock_item_s) :
    (l.Sorted clockLE → (ordered_clock_insert l src).Sorted clockLE) ∧
    ((l = [] ∨ ∃ x ∈ l, x.clock ≤ src.clock) → src ∈ ordered_clock_insert l src) ∧
    ((∃ x ∈ l, x.clock ≤ src.clock) →
      (ordered_clock_insert l src).reverse
        = l.reverse.takeWhile (fun y => decide (src.clock < y.clock))
          ++ src :: l.reverse.dropWhile (fun y => decide (src.clock < y.clock))) ∧
    (l ≠ [] → (∀ x ∈ l, src.clock < x.clock) → ordered_clock_insert l src = l) := by
  by_cases hemp : l.isEmpty
  · have hl : l = [] := List.isEmpty_iff.mp hemp
    subst hl
    refine ⟨fun _ => by simp [ordered_clock_insert, List.Sorted], ?_, ?_, ?_⟩
    · intro _
      simp [ordered_clock_insert]
    · rintro ⟨x, hx, _⟩
      exact absurd hx (by simp)
    · intro h
      exact absurd rfl h
  · have hins : ordered_clock_insert l src
        = (ordered_clock_insert_scan src l.reverse).reverse := by
      simp [ordered_clock_insert, hemp]
    refine ⟨?_, ?_, ?_, ?_⟩
    · intro hsorted
      rw [hins, sorted_clockGE_of_reverse]
      exact ordered_clock_insert_scan_sorted (sorted_clockLE_reverse.mpr hsorted)
    · rintro (rfl | ⟨x, hx, hle⟩)
      · simp at hemp
      · rw [hins, List.mem_reverse]
        rw [ordered_clock_insert_scan_found ⟨x, List.mem_reverse.mpr hx, hle⟩]
        simp
    · rintro ⟨x, hx, hle⟩
      rw [hins, List.reverse_reverse]
      exact ordered_clock_insert_scan_found ⟨x, List.mem_reverse.mpr hx, hle⟩
    · intro _ hall
      rw [hins, ordered_clock_insert_scan_notfound
        (fun y hy => hall y (List.mem_reverse.mp hy)), List.reverse_reverse]

/-- Witness for C6: inserting clock 3 after a single node with clock 2
keeps the list sorted and the observation is present. -/
theorem C6_ordered_clock_insert_props_witness :
    (ordered_clock_insert [⟨0, 2, 0⟩] ⟨1, 3, 7⟩).Sorted clockLE ∧
    (⟨1, 3, 7⟩ : ordered_clock_item_s) ∈ ordered_clock_insert [⟨0, 2, 0⟩] ⟨1, 3, 7⟩ :=
  ⟨(C6_ordered_clock_insert_props [⟨0, 2, 0⟩] ⟨1, 3, 7⟩).1
      (by simp [List.Sorted]),
   (C6_ordered_clock_insert_props [⟨0, 2, 0⟩] ⟨1, 3, 7⟩).2.1
      (Or.inr ⟨⟨0, 2, 0⟩, by simp, by norm_num⟩)⟩

/-- **C6 counterexample.**  Inserting an observation with clock 3 into the
list `[{clock 5}]` leaves the list unchanged: the backwards scan finds no
node with clock `≤ 3`, so the new node is never linked, contradicting the
claim that the list always contains the inserted observation. -/
theorem C6_ordered_clock_insert_counterexample :
    ordered_clock_insert [⟨0, 5, 0⟩] ⟨1, 3, 7⟩ = [⟨0, 5, 0⟩] ∧
    (⟨1, 3, 7⟩ : ordered_clock_item_s) ∉ ordered_clock_insert [⟨0, 5, 0⟩] ⟨1, 3, 7⟩ := by
  refine ⟨by decide, by decide⟩
